import Mathlib

/-!
Verification of the LLM-Dev-Ops orchestrator core against its specification.

This file gives a shallow embedding, in Lean 4, of the parts of the
orchestrator relevant to the checked claims:

* the SHA-256 hash function (used by the audit hash chain and by API-key
  storage; both call the `sha2` crate and render the digest as lowercase hex);
* the audit data model, the hash-chaining logger
  (`llm-orchestrator-audit/src/models.rs`, `logger.rs`) and the pure core of
  the file storage backend (`file.rs`): filtering, sorting, limiting and
  retention deletion over the decoded event list;
* the auth core (`llm-orchestrator-auth`): the RBAC engine, the JWT
  issue/verify/refresh flow (with the external `jsonwebtoken` crate modelled
  symbolically), API-key lookup, and the authentication middleware;
* the workflow executor (`llm-orchestrator-core/src/executor.rs`): the
  dispatch loop with dependency barriers, the condition gate, the skip path,
  and per-step retry and result recording.

Modelling conventions: Rust `u32` arithmetic is `Nat` reduced `% 2 ^ 32`;
`DateTime<Utc>` is an epoch timestamp (`Nat` seconds for audit events, `Int`
seconds for auth expiry arithmetic); `HashMap`/`DashMap` state is an
association list; fallible code returns `Except`/`Option`.  Stateful
operations take and return their state explicitly.  All definitions are
executable.
-/

set_option maxRecDepth 1000000

/-! ## SHA-256

A direct implementation of FIPS 180-4 SHA-256 over byte lists, with 32-bit
words as `Nat` reduced modulo `2 ^ 32`.  `sha256hex` renders the digest as 64
lowercase hex characters, matching `hex::encode` / `format!` with `{:x}` on
the `sha2` crate's output in the source. -/

/-- Modulus of 32-bit words. -/
def w32 : Nat := 4294967296

/-- Right rotation of a 32-bit word by `n` bits. -/
def rotr (n x : Nat) : Nat := ((x >>> n) ||| (x <<< (32 - n))) % w32

/-- The first 64 primes.  FIPS 180-4 derives the SHA-256 constants from
their square and cube roots; the test vectors below confirm the derived
tables. -/
def sha64Primes : List Nat :=
  [2, 3, 5, 7, 11, 13, 17, 19, 23, 29, 31, 37, 41, 43, 47, 53,
   59, 61, 67, 71, 73, 79, 83, 89, 97, 101, 103, 107, 109, 113, 127, 131,
   137, 139, 149, 151, 157, 163, 167, 173, 179, 181, 191, 193, 197, 199, 211, 223,
   227, 229, 233, 239, 241, 251, 257, 263, 269, 271, 277, 281, 283, 293, 307, 311]

/-- Integer square root (of values below `2 ^ 80`) by binary digit descent. -/
def isqrtb (n : Nat) : Nat :=
  (List.range 40).foldl
    (fun acc i =>
      let c := acc + (1 <<< (39 - i))
      if c * c ≤ n then c else acc)
    0

/-- Integer cube root (of values below `2 ^ 120`) by binary digit descent. -/
def icbrtb (n : Nat) : Nat :=
  (List.range 40).foldl
    (fun acc i =>
      let c := acc + (1 <<< (39 - i))
      if c * c * c ≤ n then c else acc)
    0

/-- The SHA-256 round constants `K`: the first 32 fractional bits of the
cube roots of the first 64 primes (FIPS 180-4 section 4.2.2). -/
def shaK : List Nat := sha64Primes.map (fun p => icbrtb (p <<< 96) % w32)

/-- The SHA-256 initial hash state `H(0)`: the first 32 fractional bits of
the square roots of the first 8 primes (FIPS 180-4 section 5.3.3). -/
def shaH0 : List Nat := (sha64Primes.take 8).map (fun p => isqrtb (p <<< 64) % w32)

/-- Big-endian decomposition of `n` into `k` bytes. -/
def toBytesBE (k n : Nat) : List Nat :=
  (List.range k).map (fun i => (n >>> (8 * (k - 1 - i))) % 256)

/-- SHA-256 message padding: a `0x80` byte, zero bytes up to 56 mod 64, and
the 64-bit big-endian bit length. -/
def shaPad (msg : List Nat) : List Nat :=
  let len := msg.length
  let zeros := (119 - (len % 64)) % 64
  msg ++ [0x80] ++ List.replicate zeros 0 ++ toBytesBE 8 (8 * len)

/-- The big-endian 32-bit word of a block at word offset `i`. -/
def wordAt (block : List Nat) (i : Nat) : Nat :=
  (block.getD (4 * i) 0) <<< 24 ||| (block.getD (4 * i + 1) 0) <<< 16 |||
  (block.getD (4 * i + 2) 0) <<< 8 ||| block.getD (4 * i + 3) 0

/-- The 64-entry message schedule of one 64-byte block. -/
def shaSchedule (block : List Nat) : List Nat :=
  (List.range 48).foldl
    (fun w _ =>
      let t := w.length
      let x15 := w.getD (t - 15) 0
      let x2 := w.getD (t - 2) 0
      let s0 := rotr 7 x15 ^^^ rotr 18 x15 ^^^ (x15 >>> 3)
      let s1 := rotr 17 x2 ^^^ rotr 19 x2 ^^^ (x2 >>> 10)
      w ++ [(w.getD (t - 16) 0 + s0 + w.getD (t - 7) 0 + s1) % w32])
    ((List.range 16).map (wordAt block))

/-- One SHA-256 compression round, consuming a round constant paired with a
schedule word. -/
def shaRound (st : List Nat) (kw : Nat × Nat) : List Nat :=
  let a := st.getD 0 0
  let b := st.getD 1 0
  let c := st.getD 2 0
  let d := st.getD 3 0
  let e := st.getD 4 0
  let f := st.getD 5 0
  let g := st.getD 6 0
  let h := st.getD 7 0
  let s1 := rotr 6 e ^^^ rotr 11 e ^^^ rotr 25 e
  let ch := g ^^^ (e &&& (f ^^^ g))
  let t1 := (h + s1 + ch + kw.1 + kw.2) % w32
  let s0 := rotr 2 a ^^^ rotr 13 a ^^^ rotr 22 a
  let mj := (a &&& b) ||| (c &&& (a ||| b))
  let t2 := (s0 + mj) % w32
  [(t1 + t2) % w32, a, b, c, (d + t1) % w32, e, f, g]

/-- Compression of one 64-byte block into the running hash state. -/
def shaCompress (st : List Nat) (block : List Nat) : List Nat :=
  let fin := (shaK.zip (shaSchedule block)).foldl shaRound st
  (List.range 8).map (fun i => (st.getD i 0 + fin.getD i 0) % w32)

/-- SHA-256 digest of a byte list, as its 8 final 32-bit words. -/
def sha256Words (msg : List Nat) : List Nat :=
  let padded := shaPad msg
  ((List.range (padded.length / 64)).map
    (fun i => (padded.drop (64 * i)).take 64)).foldl shaCompress shaH0

/-- Lowercase hex digit for `n < 16`. -/
def hexDigit (n : Nat) : Char :=
  if n < 10 then Char.ofNat (48 + n) else Char.ofNat (87 + n)

/-- Lowercase hex rendering of one 32-bit word, 8 digits. -/
def wordHex (n : Nat) : List Char :=
  (List.range 8).map (fun i => hexDigit ((n >>> (4 * (7 - i))) % 16))

/-- UTF-8 encoding of one character. -/
def charUtf8 (c : Char) : List Nat :=
  let n := c.toNat
  if n < 128 then [n]
  else if n < 2048 then [192 ||| (n >>> 6), 128 ||| (n &&& 63)]
  else if n < 65536 then
    [224 ||| (n >>> 12), 128 ||| ((n >>> 6) &&& 63), 128 ||| (n &&& 63)]
  else
    [240 ||| (n >>> 18), 128 ||| ((n >>> 12) &&& 63), 128 ||| ((n >>> 6) &&& 63),
     128 ||| (n &&& 63)]

/-- UTF-8 byte sequence of a string, as `str::as_bytes` sees it. -/
def strBytes (s : String) : List Nat := s.data.flatMap charUtf8

/-- SHA-256 of a string, rendered as 64 lowercase hex characters. -/
def sha256hex (s : String) : String :=
  String.mk ((sha256Words (strBytes s)).flatMap wordHex)

/-! ## RFC 3339 timestamps

`chrono::DateTime<Utc>::to_rfc3339` renders a UTC instant; for whole-second
instants the form is `YYYY-MM-DDTHH:MM:SS+00:00`.  Audit timestamps are
modelled as whole seconds since the Unix epoch, and this renderer implements
the civil-date conversion for them. -/

/-- Left-pad the decimal rendering of `n` with zeros to width `k`. -/
def padNum (k n : Nat) : String :=
  let s := toString n
  String.mk (List.replicate (k - s.length) (Char.ofNat 48)) ++ s

/-- Civil date `(year, month, day)` of a day count since 1970-01-01
(the standard days-from-civil inverse over the 400-year Gregorian cycle). -/
def civilFromDays (days : Nat) : Nat × Nat × Nat :=
  let z := days + 719468
  let era := z / 146097
  let doe := z % 146097
  let yoe := (doe - doe / 1460 + doe / 36524 - doe / 146096) / 365
  let y := yoe + era * 400
  let doy := doe - (365 * yoe + yoe / 4 - yoe / 100)
  let mp := (5 * doy + 2) / 153
  let d := doy - (153 * mp + 2) / 5 + 1
  let m := if mp < 10 then mp + 3 else mp - 9
  (if m ≤ 2 then y + 1 else y, m, d)

/-- RFC 3339 rendering of a whole-second UTC epoch timestamp. -/
def toRfc3339 (t : Nat) : String :=
  let date := civilFromDays (t / 86400)
  let secs := t % 86400
  padNum 4 date.1 ++ "-" ++ padNum 2 date.2.1 ++ "-" ++ padNum 2 date.2.2 ++ "T" ++
    padNum 2 (secs / 3600) ++ ":" ++ padNum 2 ((secs % 3600) / 60) ++ ":" ++
    padNum 2 (secs % 60) ++ "+00:00"

/-! ## JSON values

A minimal JSON value type standing in for `serde_json::Value`, used for step
outputs and audit event details. -/

/-- JSON values (`serde_json::Value`). -/
inductive Json where
  | null : Json
  | bool (b : Bool) : Json
  | num (n : Int) : Json
  | str (s : String) : Json
  | arr (elems : List Json) : Json
  | obj (fields : List (String × Json)) : Json
deriving Repr

/-! ## Audit data model (`llm-orchestrator-audit/src/models.rs`) -/

namespace Audit

/-- Event kinds (`AuditEventType` in `models.rs`). -/
inductive AuditEventType where
  | Authentication
  | Authorization
  | WorkflowExecution
  | WorkflowCreate
  | WorkflowUpdate
  | WorkflowDelete
  | SecretAccess
  | ConfigChange
  | ApiKeyCreate
  | ApiKeyRevoke
  | StepExecution
  | SystemEvent
deriving DecidableEq, Repr

/-- String tag of an event kind (`AuditEventType::as_str`). -/
def AuditEventType.as_str : AuditEventType → String
  | .Authentication => "authentication"
  | .Authorization => "authorization"
  | .WorkflowExecution => "workflow_execution"
  | .WorkflowCreate => "workflow_create"
  | .WorkflowUpdate => "workflow_update"
  | .WorkflowDelete => "workflow_delete"
  | .SecretAccess => "secret_access"
  | .ConfigChange => "config_change"
  | .ApiKeyCreate => "api_key_create"
  | .ApiKeyRevoke => "api_key_revoke"
  | .StepExecution => "step_execution"
  | .SystemEvent => "system_event"

/-- Resource kinds (`ResourceType` in `models.rs`). -/
inductive ResourceType where
  | Workflow
  | User
  | ApiKey
  | Secret
  | Configuration
  | Step
  | System
deriving DecidableEq, Repr

/-- String tag of a resource kind (`ResourceType::as_str`). -/
def ResourceType.as_str : ResourceType → String
  | .Workflow => "workflow"
  | .User => "user"
  | .ApiKey => "api_key"
  | .Secret => "secret"
  | .Configuration => "configuration"
  | .Step => "step"
  | .System => "system"

/-- Action results (`AuditResult` in `models.rs`). -/
inductive AuditResult where
  | Success
  | Failure (msg : String)
  | PartialSuccess
deriving DecidableEq, Repr

/-- String tag of a result (`AuditResult::as_str`); the failure message is
not part of the tag. -/
def AuditResult.as_str : AuditResult → String
  | .Success => "success"
  | .Failure _ => "failure"
  | .PartialSuccess => "partial_success"

/-- An audit event (`AuditEvent` in `models.rs`).  The `id` is the display
string of the `Uuid`; the timestamp is whole seconds since the Unix epoch
(`DateTime<Utc>` at second precision). -/
structure AuditEvent where
  id : String
  timestamp : Nat
  event_type : AuditEventType
  user_id : Option String
  action : String
  resource_type : ResourceType
  resource_id : String
  result : AuditResult
  details : Json
  ip_address : Option String
  user_agent : Option String
  request_id : Option String
  previous_hash : Option String
  event_hash : Option String
deriving Repr

/-- Tamper-detection hash of an event (`AuditEvent::compute_hash` in
`models.rs`, lines 109-127): SHA-256 of the pipe-joined rendering of id,
RFC 3339 timestamp, event-kind tag, action, resource-kind tag, resource id,
result tag, and `previous_hash` or the empty string. -/
def AuditEvent.compute_hash (e : AuditEvent) : String :=
  sha256hex (e.id ++ "|" ++ toRfc3339 e.timestamp ++ "|" ++ e.event_type.as_str ++ "|" ++
    e.action ++ "|" ++ e.resource_type.as_str ++ "|" ++ e.resource_id ++ "|" ++
    e.result.as_str ++ "|" ++ e.previous_hash.getD (""))

/-! ### Hash-chaining logger (`llm-orchestrator-audit/src/logger.rs`)

`AuditLogger::log_event` (lines 338-362), for an enabled logger: set the
event's `previous_hash` to the logger's stored hash, set its `event_hash` to
`compute_hash` of the event (with `previous_hash` already in place), store
the event, and remember its `event_hash` as the new stored hash.  The stored
hash starts out `None`.  The lock around the whole sequence serializes
writers, so a run of the logger is the fold below. -/

/-- One `log_event` call: the event as stored, given the chain state. -/
def log_event (prev : Option String) (e : AuditEvent) : AuditEvent :=
  let e1 := { e with previous_hash := prev }
  { e1 with event_hash := some e1.compute_hash }

/-- A sequence of `log_event` calls from chain state `prev`: the list of
events as stored. -/
def log_events (prev : Option String) : List AuditEvent → List AuditEvent
  | [] => []
  | e :: rest =>
    let e' := log_event prev e
    e' :: log_events e'.event_hash rest

/-! ### Query filters and the file backend
(`models.rs` lines 267-355, `llm-orchestrator-audit/src/file.rs`) -/

/-- Query filter (`AuditFilter` in `models.rs`). -/
structure AuditFilter where
  user_id : Option String
  event_type : Option AuditEventType
  resource_type : Option ResourceType
  resource_id : Option String
  start_time : Option Nat
  end_time : Option Nat
  result : Option AuditResult
  limit : Nat
  offset : Nat
deriving Repr

/-- The derived `Default` for `AuditFilter`: every option `None`, `limit`
and `offset` zero. -/
def AuditFilter.default : AuditFilter :=
  { user_id := none, event_type := none, resource_type := none, resource_id := none,
    start_time := none, end_time := none, result := none, limit := 0, offset := 0 }

/-- `AuditFilter::new` (`models.rs` lines 298-305): the default filter with
`limit` set to 100. -/
def AuditFilter.new : AuditFilter :=
  { AuditFilter.default with limit := 100 }

/-- The per-event predicate of `FileAuditStorage::filter_events` (`file.rs`
lines 158-202).  Note the `result` comparison is by tag (`as_str`), as in the
source. -/
def matchesFilter (f : AuditFilter) (e : AuditEvent) : Bool :=
  (match f.user_id with
   | some u => e.user_id == some u
   | none => true) &&
  (match f.event_type with
   | some t => e.event_type == t
   | none => true) &&
  (match f.resource_type with
   | some t => e.resource_type == t
   | none => true) &&
  (match f.resource_id with
   | some r => e.resource_id == r
   | none => true) &&
  (match f.start_time with
   | some st => decide (st ≤ e.timestamp)
   | none => true) &&
  (match f.end_time with
   | some et => decide (e.timestamp ≤ et)
   | none => true) &&
  (match f.result with
   | some r => e.result.as_str == r.as_str
   | none => true)

/-- Descending-timestamp comparison used by the file backend's sort
(`file.rs` line 206: `sort_by(|a, b| b.timestamp.cmp(&a.timestamp))`). -/
def tsDesc (a b : AuditEvent) : Prop := b.timestamp ≤ a.timestamp

instance : DecidableRel tsDesc := fun a b => Nat.decLe b.timestamp a.timestamp

instance : IsTotal AuditEvent tsDesc := ⟨fun a b => Nat.le_total b.timestamp a.timestamp⟩

instance : IsTrans AuditEvent tsDesc := ⟨fun _ _ _ h1 h2 => Nat.le_trans h2 h1⟩

/-- `FileAuditStorage::filter_events` (`file.rs` lines 155-214): keep the
events matching the filter, sort by timestamp descending (a stable sort,
modelled by the stable `insertionSort`), skip `offset`, take `limit`.  A
`query` reads the stored events and applies this. -/
def filter_events (events : List AuditEvent) (f : AuditFilter) : List AuditEvent :=
  (((List.insertionSort tsDesc (events.filter (matchesFilter f)))).drop f.offset).take f.limit

/-- `FileAuditStorage::delete_older_than` (`file.rs` lines 250-285):
partition the stored events on `timestamp ≥ cutoff`, rewrite the file with
the kept part, and return the count of the deleted part.  Result: (deleted
count, remaining stored events). -/
def delete_older_than (events : List AuditEvent) (cutoff : Nat) : Nat × List AuditEvent :=
  let parts := events.partition (fun e => decide (cutoff ≤ e.timestamp))
  (parts.2.length, parts.1)

end Audit

/-! ## Auth core (`llm-orchestrator-auth`) -/

namespace Auth

/-- Permissions (`Permission` in `auth/src/models.rs`). -/
inductive Permission where
  | WorkflowRead
  | WorkflowWrite
  | WorkflowExecute
  | WorkflowDelete
  | AdminAccess
  | ExecutionRead
  | ExecutionCancel
deriving DecidableEq, Repr

/-- The full permission universe (`Permission::all`). -/
def Permission.all : List Permission :=
  [.WorkflowRead, .WorkflowWrite, .WorkflowExecute, .WorkflowDelete, .AdminAccess,
   .ExecutionRead, .ExecutionCancel]

/-- A role policy (`RolePolicy` in `auth/src/models.rs`). -/
structure RolePolicy where
  role : String
  permissions : List Permission
  description : Option String
deriving DecidableEq, Repr

/-- Auth errors (`AuthError` in `auth/src/models.rs`).  The crate-level
`JwtError` and `SerializationError` wrappers carry the foreign error's
message. -/
inductive AuthError where
  | MissingCredentials
  | InvalidCredentials
  | TokenExpired
  | InvalidToken (msg : String)
  | ApiKeyNotFound
  | ApiKeyExpired
  | InsufficientPermissions (required : Permission) (available : List Permission)
  | RoleNotFound (role : String)
  | UserNotFound (user : String)
  | Internal (msg : String)
  | JwtError (msg : String)
  | SerializationError (msg : String)
deriving DecidableEq, Repr

/-! ### RBAC engine (`llm-orchestrator-auth/src/rbac.rs`)

The engine's state is its `role → RolePolicy` map, modelled as an association
list with unique keys.  `HashMap` iteration order never matters below: reads
go through point lookups, and `compute_permissions` accumulates into a
`HashSet` whose iteration order is unspecified, so that function is modelled
as an insertion-ordered duplicate-free list and its content compared as a
set. -/

/-- The policy map of an `RbacEngine`. -/
abbrev Policies := List (String × RolePolicy)

/-- Append a permission to a duplicate-free accumulation (a `HashSet.insert`
step). -/
def permInsert (acc : List Permission) (p : Permission) : List Permission :=
  if acc.contains p then acc else acc ++ [p]

/-- `RbacEngine::compute_permissions` (`rbac.rs` lines 128-144): accumulate
the permissions of each role present in the policy map; if the accumulation
contains `AdminAccess`, return `Permission::all()` instead. -/
def compute_permissions (ps : Policies) (roles : List String) : List Permission :=
  let perms := roles.foldl
    (fun acc r =>
      match List.lookup r ps with
      | some pol => pol.permissions.foldl permInsert acc
      | none => acc)
    []
  if perms.contains Permission.AdminAccess then Permission.all else perms

/-- `RbacEngine::check_permission` (`rbac.rs` lines 154-171): scan the roles;
a role whose policy contains `AdminAccess` or the requested permission
grants access. -/
def check_permission (ps : Policies) : List String → Permission → Bool
  | [], _ => false
  | r :: rest, p =>
    match List.lookup r ps with
    | some pol =>
      if pol.permissions.contains Permission.AdminAccess then true
      else if pol.permissions.contains p then true
      else check_permission ps rest p
    | none => check_permission ps rest p

/-- The permissions a single role contributes: its policy's permissions as a
set, or none when the role is absent from the map. -/
def rolePerms (ps : Policies) (r : String) : Finset Permission :=
  match List.lookup r ps with
  | some pol => pol.permissions.toFinset
  | none => ∅

/-- The union of the permissions of the roles in a role list, written as the
specification says it: `⋃ r ∈ roles, perms(r)`. -/
def permission_union (ps : Policies) (roles : List String) : Finset Permission :=
  roles.toFinset.biUnion (rolePerms ps)

/-! ### JWT (`llm-orchestrator-auth/src/jwt.rs`)

The `jsonwebtoken` crate is external; its `encode`/`decode` pair is modelled
symbolically: a token is its payload together with the key that signed it,
and `decode` succeeds exactly when the keys agree, the payload deserializes
as the requested claims type, the issuer is in the validation set, and the
`exp` claim is not in the past beyond the crate's default 60-second leeway
(`Validation::new` has `validate_exp = true`, `leeway = 60`).  Timestamps
are whole seconds; the `HS256` algorithm tag is constant and omitted. -/

/-- Access-token claims (`Claims` in `auth/src/models.rs`). -/
structure Claims where
  sub : String
  roles : List String
  exp : Int
  iat : Int
  iss : String
  jti : Option String
deriving DecidableEq, Repr

/-- Refresh-token claims (`RefreshClaims` in `jwt.rs`). -/
structure RefreshClaims where
  sub : String
  exp : Int
  iat : Int
  iss : String
  jti : String
  token_type : String
deriving DecidableEq, Repr

/-- A signed token's payload: one of the two claim shapes. -/
inductive JwtPayload where
  | access (c : Claims)
  | refresh (c : RefreshClaims)
deriving DecidableEq, Repr

/-- A signed JWT, symbolically: the payload plus the signing key. -/
structure JwtToken where
  payload : JwtPayload
  key : List Nat
deriving DecidableEq, Repr

/-- `JwtAuth` configuration (`jwt.rs` lines 8-24; defaults in `new`). -/
structure JwtAuth where
  secret : List Nat
  issuer : String
  expiry_seconds : Int
  refresh_expiry_seconds : Int
deriving DecidableEq, Repr

/-- `JwtAuth::new` (`jwt.rs` lines 38-46). -/
def JwtAuth.new (secret : List Nat) : JwtAuth :=
  { secret := secret, issuer := "llm-orchestrator", expiry_seconds := 900,
    refresh_expiry_seconds := 604800 }

/-- The `jsonwebtoken` default expiry leeway, seconds. -/
def jwtLeeway : Int := 60

/-- Symbolic `jsonwebtoken::encode`. -/
def jwt_encode (p : JwtPayload) (secret : List Nat) : JwtToken :=
  { payload := p, key := secret }

/-- Symbolic `jsonwebtoken::decode::<Claims>` under a validation with the
given issuer: signature check, claim-shape check (refresh payloads lack
`roles`, so they fail deserialization), issuer check, default `exp` check. -/
def jwt_decode_access (tok : JwtToken) (secret : List Nat) (issuer : String) (now : Int) :
    Except AuthError Claims :=
  if tok.key == secret then
    match tok.payload with
    | .refresh _ => .error (.JwtError ("missing field roles"))
    | .access c =>
      if c.iss == issuer then
        if c.exp < now - jwtLeeway then .error (.JwtError ("ExpiredSignature"))
        else .ok c
      else .error (.JwtError ("InvalidIssuer"))
  else .error (.JwtError ("InvalidSignature"))

/-- Symbolic `jsonwebtoken::decode::<RefreshClaims>`: as above, but access
payloads lack `token_type`, so they fail deserialization. -/
def jwt_decode_refresh (tok : JwtToken) (secret : List Nat) (issuer : String) (now : Int) :
    Except AuthError RefreshClaims :=
  if tok.key == secret then
    match tok.payload with
    | .access _ => .error (.JwtError ("missing field token_type"))
    | .refresh c =>
      if c.iss == issuer then
        if c.exp < now - jwtLeeway then .error (.JwtError ("ExpiredSignature"))
        else .ok c
      else .error (.JwtError ("InvalidIssuer"))
  else .error (.JwtError ("InvalidSignature"))

/-- `JwtAuth::generate_token` (`jwt.rs` lines 67-85).  `now` is the issuing
instant and `jti` the freshly generated UUID string. -/
def generate_token (a : JwtAuth) (now : Int) (jti : String) (user_id : String)
    (roles : List String) : JwtToken :=
  jwt_encode
    (.access
      { sub := user_id, roles := roles, exp := now + a.expiry_seconds, iat := now,
        iss := a.issuer, jti := some jti })
    a.secret

/-- `JwtAuth::generate_refresh_token` (`jwt.rs` lines 90-108). -/
def generate_refresh_token (a : JwtAuth) (now : Int) (jti : String) (user_id : String) :
    JwtToken :=
  jwt_encode
    (.refresh
      { sub := user_id, exp := now + a.refresh_expiry_seconds, iat := now, iss := a.issuer,
        jti := jti, token_type := "refresh" })
    a.secret

/-- `JwtAuth::verify_token` (`jwt.rs` lines 117-134): decode under the
configured issuer, then reject `exp < now`. -/
def verify_token (a : JwtAuth) (now : Int) (tok : JwtToken) : Except AuthError Claims :=
  match jwt_decode_access tok a.secret a.issuer now with
  | .error e => .error e
  | .ok c => if c.exp < now then .error .TokenExpired else .ok c

/-- `JwtAuth::verify_refresh_token` (`jwt.rs` lines 137-161): decode, reject
`exp < now`, require `token_type == "refresh"`, and return the subject. -/
def verify_refresh_token (a : JwtAuth) (now : Int) (tok : JwtToken) : Except AuthError String :=
  match jwt_decode_refresh tok a.secret a.issuer now with
  | .error e => .error e
  | .ok c =>
    if c.exp < now then .error .TokenExpired
    else if c.token_type == "refresh" then .ok c.sub
    else .error (.InvalidToken ("Not a refresh token"))

/-- `JwtAuth::refresh_access_token` (`jwt.rs` lines 171-178): verify the
refresh token, then generate a fresh access token for its subject with the
supplied roles.  `now_verify`/`now_issue` are the two `Utc::now()` samples,
and `jti` the fresh UUID of the new token. -/
def refresh_access_token (a : JwtAuth) (now_verify now_issue : Int) (jti : String)
    (refresh_token : JwtToken) (roles : List String) : Except AuthError JwtToken :=
  match verify_refresh_token a now_verify refresh_token with
  | .error e => .error e
  | .ok user_id => .ok (generate_token a now_issue jti user_id roles)

/-! ### API keys (`llm-orchestrator-auth/src/api_keys.rs`)

The in-memory store is a `DashMap` keyed by the key's SHA-256 digest; it is
modelled as the list of stored `ApiKeyInfo` records looked up by their
`key_hash` field.  Timestamps are whole seconds (`Int`). -/

/-- Stored key record (`ApiKeyInfo` in `auth/src/models.rs`). -/
structure ApiKeyInfo where
  id : String
  key_hash : String
  user_id : String
  scopes : List String
  created_at : Int
  expires_at : Option Int
  name : Option String
  last_used_at : Option Int
deriving DecidableEq, Repr

/-- The backing store of an `ApiKeyManager`. -/
abbrev KeyStore := List ApiKeyInfo

/-- `ApiKeyManager::hash_key` (`api_keys.rs` lines 125-129): SHA-256 of the
plaintext, lowercase hex. -/
def hash_key (key : String) : String := sha256hex key

/-- `ApiKeyStore::lookup_key` of the in-memory store: point lookup by
digest. -/
def store_lookup_key (ks : KeyStore) (digest : String) : Option ApiKeyInfo :=
  ks.find? (fun k => k.key_hash == digest)

/-- `ApiKeyStore::update_last_used` of the in-memory store: set
`last_used_at` on the entry with the given id. -/
def update_last_used (ks : KeyStore) (key_id : String) (now : Int) : KeyStore :=
  match ks with
  | [] => []
  | k :: rest =>
    if k.id == key_id then { k with last_used_at := some now } :: rest
    else k :: update_last_used rest key_id now

/-- Expiry test of `ApiKeyManager::lookup_key` (`api_keys.rs` lines 83-87):
expired iff an `expires_at` is present and `Utc::now()` is strictly past
it. -/
def key_expired (info : ApiKeyInfo) (now : Int) : Bool :=
  match info.expires_at with
  | some e => decide (e < now)
  | none => false

/-- `ApiKeyManager::lookup_key` (`api_keys.rs` lines 74-97): hash the
plaintext, look up by digest (missing → `ApiKeyNotFound`), reject expired
keys (`ApiKeyExpired`), otherwise update `last_used_at` and return the
re-fetched record.  The updated store is threaded through the result. -/
def lookup_key (ks : KeyStore) (now : Int) (key : String) :
    Except AuthError (ApiKeyInfo × KeyStore) :=
  let digest := hash_key key
  match store_lookup_key ks digest with
  | none => .error .ApiKeyNotFound
  | some info =>
    if key_expired info now then .error .ApiKeyExpired
    else
      let ks' := update_last_used ks info.id now
      match store_lookup_key ks' digest with
      | none => .error .ApiKeyNotFound
      | some info' => .ok (info', ks')

/-! ### Middleware (`llm-orchestrator-auth/src/middleware.rs`) -/

/-- Authentication kind of a context (`AuthType` in `auth/src/models.rs`);
the `Jwt` variant carries the presented token. -/
inductive AuthType where
  | Jwt (tok : JwtToken)
  | ApiKey (id : String)
  | None
deriving DecidableEq, Repr

/-- Authenticated request context (`AuthContext` in `auth/src/models.rs`). -/
structure AuthContext where
  user_id : String
  roles : List String
  permissions : List Permission
  auth_type : AuthType
  expires_at : Int
deriving DecidableEq, Repr

/-- `str::strip_prefix`, on characters. -/
def strip_prefix (pre s : String) : Option String :=
  if pre.data.isPrefixOf s.data then some (s.drop pre.length) else none

/-- The fixed scope-to-permission table of
`AuthMiddleware::scopes_to_permissions` (`middleware.rs` lines 96-112). -/
def scopePerm : String → Option Permission
  | "workflow:read" => some .WorkflowRead
  | "workflow:write" => some .WorkflowWrite
  | "workflow:execute" => some .WorkflowExecute
  | "workflow:delete" => some .WorkflowDelete
  | "execution:read" => some .ExecutionRead
  | "execution:cancel" => some .ExecutionCancel
  | "admin" => some .AdminAccess
  | _ => none

/-- `AuthMiddleware::scopes_to_permissions`: map each scope through the
table, dropping the unknown ones (`filter_map`). -/
def scopes_to_permissions (scopes : List String) : List Permission :=
  scopes.filterMap scopePerm

/-- `AuthMiddleware::scopes_to_roles` (`middleware.rs` lines 115-133). -/
def scopes_to_roles (scopes : List String) : List String :=
  let has_read := scopes.contains ("workflow:read")
  let has_write := scopes.contains ("workflow:write")
  let has_execute := scopes.contains ("workflow:execute")
  let has_admin := scopes.contains ("admin")
  if has_admin then ["admin"]
  else if has_write && has_execute then ["developer"]
  else if has_execute then ["executor"]
  else if has_read then ["viewer"]
  else []

/-- Seconds in `chrono::Duration::days(365 * 10)`, the far-future expiry the
middleware substitutes for keys without one. -/
def tenYears : Int := 315360000

/-- `AuthMiddleware::authenticate_api_key` (`middleware.rs` lines 73-93):
look the key up, derive permissions from its scopes and roles from its scope
pattern, and default a missing expiry to ten years from now. -/
def authenticate_api_key (ks : KeyStore) (now : Int) (api_key : String) :
    Except AuthError (AuthContext × KeyStore) :=
  match lookup_key ks now api_key with
  | .error e => .error e
  | .ok (info, ks') =>
    .ok
      ({ user_id := info.user_id, roles := scopes_to_roles info.scopes,
         permissions := scopes_to_permissions info.scopes, auth_type := .ApiKey info.id,
         expires_at := info.expires_at.getD (now + tenYears) },
       ks')

/-- `AuthMiddleware::authenticate` (`middleware.rs` lines 41-52): no header
is `MissingCredentials`; a `Bearer ` prefix goes to the JWT path; an
`ApiKey ` prefix goes to the API-key path; anything else is
`InvalidCredentials`.  The JWT path parses the remainder as a compact JWT
string, which the symbolic token model cannot represent, so that path is a
parameter. -/
def authenticate (jwtPath : String → Except AuthError AuthContext) (ks : KeyStore) (now : Int)
    (header : Option String) : Except AuthError (AuthContext × KeyStore) :=
  match header with
  | none => .error .MissingCredentials
  | some h =>
    match strip_prefix ("Bearer ") h with
    | some token_str =>
      match jwtPath token_str with
      | .error e => .error e
      | .ok ctx => .ok (ctx, ks)
    | none =>
      match strip_prefix ("ApiKey ") h with
      | some api_key => authenticate_api_key ks now api_key
      | none => .error .InvalidCredentials

end Auth

/-! ## Workflow executor (`llm-orchestrator-core/src/executor.rs`) -/

namespace Core

/-- Step status (`StepStatus` in `executor.rs` lines 26-37). -/
inductive StepStatus where
  | Pending
  | Running
  | Completed
  | Failed
  | Skipped
deriving DecidableEq, Repr

/-- Step result (`StepResult` in `executor.rs` lines 41-53).  The wall-clock
`duration` field is not modelled and carries 0. -/
structure StepResult where
  step_id : String
  status : StepStatus
  outputs : List (String × Json)
  error : Option String
  duration : Nat
deriving Repr

/-- Step kinds (`StepType` in the workflow model). -/
inductive StepType where
  | Llm
  | Embed
  | VectorSearch
  | Transform
  | Action
  | Parallel
  | Branch
deriving DecidableEq, Repr

/-- Backoff strategies of a retry policy. -/
inductive BackoffStrategy where
  | Constant
  | Linear
  | Exponential
deriving DecidableEq, Repr

/-- Per-step retry configuration (`RetryConfig` in the workflow model). -/
structure RetryConfig where
  max_attempts : Nat
  backoff : BackoffStrategy
  initial_delay_ms : Nat
  max_delay_ms : Nat
deriving DecidableEq, Repr

/-- A workflow step (`Step` in the workflow model), with the fields the
executor reads.  The `config` variant only influences the provider call of
an `Llm` step, which is a parameter of the execution model below. -/
structure Step where
  id : String
  step_type : StepType
  depends_on : List String
  condition : Option String
  output : List String
  timeout_seconds : Option Nat
  retry : Option RetryConfig
deriving Repr

/-- Modelled from the spec: `ExecutionContext::evaluate_condition`
(`context.rs`, which is not under `src/`).  Per §4.2 of the specification it
accepts the literal strings `true` and `false` (directly or as the rendering
of a template) and rejects everything else with an error, here `none`. -/
def evaluate_condition : String → Option Bool
  | "true" => some true
  | "false" => some false
  | _ => none

/-- `WorkflowExecutor::should_execute` (`executor.rs` lines 251-257): a step
with no condition runs; otherwise the condition is evaluated, and an
evaluation error propagates (as `none`). -/
def should_execute (s : Step) : Option Bool :=
  match s.condition with
  | none => some true
  | some c => evaluate_condition c

/-- Whether the condition gate lets the step run. -/
def condPass (s : Step) : Bool := should_execute s == some true

/-- The number of attempts the retry wrapper makes for a step
(`WorkflowExecutor::get_retry_policy`, `executor.rs` lines 377-395: the
step's policy, or the default of 3 attempts). -/
def retry_max_attempts (s : Step) : Nat :=
  match s.retry with
  | some rc => rc.max_attempts
  | none => 3

/-- Modelled from the spec: `RetryExecutor::execute` (`retry.rs`, which is
not under `src/`).  Per §4.3 of the specification it attempts the thunk up
to `max_attempts` times and returns the first success or the last failure;
`f k` is the outcome of the `(k+1)`-th attempt.  The backoff sleeps do not
affect the returned value and are not modelled. -/
def retryGo (f : Nat → Except String (List (String × Json))) :
    Nat → Nat → Except String (List (String × Json))
  | 0, k => f k
  | 1, k => f k
  | n + 2, k =>
    match f k with
    | .ok v => .ok v
    | .error _ => retryGo f (n + 1) (k + 1)

/-- The retry wrapper, starting at attempt 0. -/
def retry_execute (max_attempts : Nat) (f : Nat → Except String (List (String × Json))) :
    Except String (List (String × Json)) :=
  retryGo f max_attempts 0

/-- `WorkflowExecutor::execute_step_inner` (`executor.rs` lines 364-374,
462-511), per attempt: `Llm` calls the registered provider with the rendered
prompt — external I/O, supplied as the oracle `attemptLlm` (which also
absorbs the per-step timeout race of lines 306-313); `Embed` and
`VectorSearch` always fail with their unimplemented-integration errors;
`Transform`, `Action`, `Parallel` and `Branch` are no-ops returning empty
outputs. -/
def execute_step_inner (attemptLlm : Step → Nat → Except String (List (String × Json)))
    (s : Step) (k : Nat) : Except String (List (String × Json)) :=
  match s.step_type with
  | .Llm => attemptLlm s k
  | .Embed => .error ("Embed provider integration not yet implemented")
  | .VectorSearch => .error ("Vector search integration not yet implemented")
  | .Transform => .ok []
  | .Action => .ok []
  | .Parallel => .ok []
  | .Branch => .ok []

/-- `WorkflowExecutor::execute_step` (`executor.rs` lines 289-361): run the
attempts under the retry policy; on success record `Completed` with the
outputs, on exhaustion record `Failed` with the error's string form. -/
def execute_step (attemptLlm : Step → Nat → Except String (List (String × Json)))
    (s : Step) : StepResult :=
  match retry_execute (retry_max_attempts s) (execute_step_inner attemptLlm s) with
  | .ok outputs =>
    { step_id := s.id, status := .Completed, outputs := outputs, error := none, duration := 0 }
  | .error e =>
    { step_id := s.id, status := .Failed, outputs := [], error := some e, duration := 0 }

/-- The result `WorkflowExecutor::mark_skipped` records (`executor.rs` lines
260-273): `Skipped`, empty outputs, no error. -/
def skippedResult (step_id : String) : StepResult :=
  { step_id := step_id, status := .Skipped, outputs := [], error := none, duration := 0 }

/-- Outcome of a run of `WorkflowExecutor::execute`: the call can return
`Ok(results)`, return an error, or never return. -/
inductive ExecOutcome where
  | diverges
  | fails (msg : String)
  | returns (results : List (String × StepResult))
deriving Repr

/-- The dispatch loop of `WorkflowExecutor::execute` (`executor.rs` lines
150-199), sequentialized.  The loop walks the DAG's execution order; for
each id it finds the step (a missing id would return `StepNotFound`), then:

* **barrier** (lines 158-159, 227-248): `wait_for_dependencies` polls until
  every dependency is in the `completed` set.  Ids enter `completed` only
  when a *dispatched* step's spawned task finishes (lines 173-182) — a
  skipped step's id is never inserted — so the barrier eventually passes
  exactly when every dependency was dispatched earlier, and otherwise the
  loop polls forever (`diverges`).  Every spawned task's attempts terminate
  in this model, and the throttle of lines 187-193 only awaits tasks, so
  sequentializing the loop preserves which steps pass the barrier and every
  recorded result.
* **gate** (lines 161-166): evaluate the condition; an evaluation error
  makes `execute` return that error (`fails`); on `false`, record the
  skipped result and continue — leaving `completed` unchanged, as the code
  does.
* **dispatch** (lines 168-184): run the step, record its result, and insert
  its id into `completed`.

`acc` accumulates the `step_results` map as an association list. -/
def executeLoop (attemptLlm : Step → Nat → Except String (List (String × Json)))
    (steps : List Step) :
    List String → List String → List (String × StepResult) → ExecOutcome
  | [], _, acc => .returns acc.reverse
  | sid :: rest, completed, acc =>
    match steps.find? (fun s => s.id == sid) with
    | none => .fails ("Step not found: " ++ sid)
    | some s =>
      if s.depends_on.all (fun d => completed.contains d) then
        match should_execute s with
        | none => .fails ("Condition evaluation error in step " ++ sid)
        | some false => executeLoop attemptLlm steps rest completed ((sid, skippedResult sid) :: acc)
        | some true =>
          executeLoop attemptLlm steps rest (sid :: completed)
            ((sid, execute_step attemptLlm s) :: acc)
      else .diverges

/-- `WorkflowExecutor::execute` (`executor.rs` lines 133-224) on a validated
workflow: run the dispatch loop over the DAG's execution order with an empty
`completed` set, and assemble the results map. -/
def execute (attemptLlm : Step → Nat → Except String (List (String × Json)))
    (steps : List Step) (order : List String) : ExecOutcome :=
  executeLoop attemptLlm steps order [] []

/-- The result the loop records for a step it reaches with its dependencies
satisfied: the skip result when the gate says no, the dispatched result
otherwise. -/
def expectedResult (attemptLlm : Step → Nat → Except String (List (String × Json)))
    (s : Step) : StepResult :=
  if condPass s then execute_step attemptLlm s else skippedResult s.id

/-- A well-formed execution order for the loop, mirroring its recursion:
every id resolves to a step, every condition evaluates, and every dependency
was dispatched (found, condition passed) strictly earlier.  `done` carries
the previously dispatched ids. -/
def goodOrder (steps : List Step) : List String → List String → Bool
  | [], _ => true
  | sid :: rest, done =>
    match steps.find? (fun s => s.id == sid) with
    | none => false
    | some s =>
      (should_execute s).isSome &&
      s.depends_on.all (fun d => done.contains d) &&
      goodOrder steps rest (if condPass s then sid :: done else done)

/-- A provider oracle for workflows without a usable LLM provider: every
`Llm` attempt fails as an unregistered provider does (`executor.rs` lines
411-417). -/
def noProvider : Step → Nat → Except String (List (String × Json)) :=
  fun _ _ => .error ("Provider not registered")

end Core

/-! ## Concrete instances used by the theorems below -/

/-- A step whose condition is the literal `false`: gated off, so skipped. -/
def stepA : Core.Step :=
  { id := "a", step_type := .Action, depends_on := [], condition := some ("false"),
    output := [], timeout_seconds := none, retry := none }

/-- A step depending on the gated-off step `a`. -/
def stepB : Core.Step :=
  { id := "b", step_type := .Transform, depends_on := ["a"], condition := none,
    output := ["out"], timeout_seconds := none, retry := none }

/-- A two-step workflow: `b` depends on `a`, and `a` is skipped.  Both ids
are unique, the dependency references a declared step, there is no
self-dependency and the order below is topological, so validation and the
DAG build succeed on it. -/
def wfSkip : List Core.Step := [stepA, stepB]

/-- The DAG execution order of `wfSkip`. -/
def wfSkipOrder : List String := ["a", "b"]

/-- First step of the three-step workflow: an unconditional no-op. -/
def stepT1 : Core.Step :=
  { id := "t1", step_type := .Transform, depends_on := [], condition := none,
    output := [], timeout_seconds := none, retry := none }

/-- Second step: gated off by a literal `false` condition. -/
def stepT2 : Core.Step :=
  { id := "t2", step_type := .Action, depends_on := ["t1"], condition := some ("false"),
    output := [], timeout_seconds := none, retry := none }

/-- Third step: depends on the gated-off step `t2`. -/
def stepT3 : Core.Step :=
  { id := "t3", step_type := .Action, depends_on := ["t2"], condition := none,
    output := [], timeout_seconds := none, retry := none }

/-- A three-step workflow that validates and DAG-builds, with a step
depending on a skipped step. -/
def wfChain : List Core.Step := [stepT1, stepT2, stepT3]

/-- The DAG execution order of `wfChain`. -/
def wfChainOrder : List String := ["t1", "t2", "t3"]

/-- A completing step: unconditional `Transform` no-op. -/
def stepW1 : Core.Step :=
  { id := "w1", step_type := .Transform, depends_on := [], condition := none,
    output := [], timeout_seconds := none, retry := none }

/-- A failing step: `Embed` is unimplemented, so every attempt errors and the
retries get exhausted. -/
def stepW2 : Core.Step :=
  { id := "w2", step_type := .Embed, depends_on := ["w1"], condition := none,
    output := [], timeout_seconds := none,
    retry := some { max_attempts := 2, backoff := .Constant, initial_delay_ms := 1,
                    max_delay_ms := 10 } }

/-- A skipped step nothing depends on. -/
def stepW3 : Core.Step :=
  { id := "w3", step_type := .Action, depends_on := [], condition := some ("false"),
    output := [], timeout_seconds := none, retry := none }

/-- A workflow exercising all three terminal statuses without a step
depending on a skipped step. -/
def wfMix : List Core.Step := [stepW1, stepW2, stepW3]

/-- The DAG execution order of `wfMix`. -/
def wfMixOrder : List String := ["w1", "w2", "w3"]

/-- A minimal audit event with timestamp `i` and id `i`'s rendering. -/
def evBase (i : Nat) : Audit.AuditEvent :=
  { id := toString i, timestamp := i, event_type := .SystemEvent, user_id := none,
    action := "act", resource_type := .System, resource_id := "r", result := .Success,
    details := .null, ip_address := none, user_agent := none, request_id := none,
    previous_hash := none, event_hash := none }

/-- 101 stored events, one more than the default query limit. -/
def evs101 : List Audit.AuditEvent := (List.range 101).map evBase

/-- A stored API key without an expiry, for the plaintext `k1`. -/
def infoK : Auth.ApiKeyInfo :=
  { id := "id1", key_hash := sha256hex ("k1"), user_id := "u1",
    scopes := ["workflow:read", "froznak", "admin"], created_at := 0, expires_at := none,
    name := none, last_used_at := none }

/-- A small policy map: the starter `viewer` and `admin` roles. -/
def psW : Auth.Policies :=
  [("viewer", { role := "viewer", permissions := [.WorkflowRead, .ExecutionRead],
                description := none }),
   ("admin", { role := "admin", permissions := Auth.Permission.all, description := none })]

/-! ## Theorems -/

example : sha256hex ("") =
    "e3b0c44298fc1c149afbf4c8996fb92427ae41e4649b934ca495991b7852b855" := by decide

example : sha256hex ("abc") =
    "ba7816bf8f01cfea414140de5dae2223b00361a396177a9cb410ff61f20015ad" := by decide

example : toRfc3339 0 = "1970-01-01T00:00:00+00:00" := by decide

example : toRfc3339 951827696 = "2000-02-29T12:34:56+00:00" := by decide

/-- C1: contrary to the claim, when a step's condition evaluates to false the
scheduler records the `Skipped` result but does *not* add the step's id to
the `completed` set (`executor.rs` lines 162-166 call `mark_skipped` and
`continue`; only a dispatched task's epilogue, lines 173-182, inserts into
`completed`).  On `wfSkip` — a workflow that validates and DAG-builds, where
`b` depends on the skipped `a` — the dependency barrier of `b` therefore
polls forever and `execute()` never returns. -/
theorem c1_skipped_id_never_enters_completed :
    Core.execute Core.noProvider wfSkip wfSkipOrder = .diverges := rfl

/-- C9: a query through the file backend with the filter built by
`AuditFilter::new()` returns at most 100 events, because that filter carries
`limit = 100` and `filter_events` applies `take limit` after sorting; a
filter built via the derived `Default` carries `limit = 0` and returns no
events. -/
theorem c9_default_filter_limits (events : List Audit.AuditEvent) :
    (Audit.filter_events events Audit.AuditFilter.new).length ≤ 100 ∧
    Audit.filter_events events Audit.AuditFilter.default = [] ∧
    Audit.AuditFilter.new.limit = 100 ∧ Audit.AuditFilter.default.limit = 0 := by
  refine ⟨?_, ?_, rfl, rfl⟩
  · simp [Audit.filter_events, Audit.AuditFilter.new, Audit.AuditFilter.default]
  · simp [Audit.filter_events, Audit.AuditFilter.default]

/-- Chain step of the logger: consecutive stored events link by hash. -/
theorem audit_log_events_chain (es : List Audit.AuditEvent) :
    ∀ (prev : Option String) (i : Nat) (e1 e2 : Audit.AuditEvent),
      (Audit.log_events prev es).get? i = some e1 →
      (Audit.log_events prev es).get? (i + 1) = some e2 →
      e2.previous_hash = e1.event_hash := by
  induction es with
  | nil =>
    intro prev i e1 e2 h1 _
    simp [Audit.log_events] at h1
  | cons e rest ih =>
    intro prev i e1 e2 h1 h2
    simp only [Audit.log_events] at h1 h2
    cases i with
    | zero =>
      rw [List.get?_cons_zero] at h1
      rw [List.get?_cons_succ] at h2
      cases rest with
      | nil => simp [Audit.log_events] at h2
      | cons r rs =>
        simp only [Audit.log_events, List.get?_cons_zero] at h2
        cases h1
        cases h2
        rfl
    | succ n =>
      rw [List.get?_cons_succ] at h1 h2
      exact ih _ n e1 e2 h1 h2

/-- Every stored event's hash recomputes from its own stored fields. -/
theorem audit_log_events_hash (es : List Audit.AuditEvent) :
    ∀ (prev : Option String) (e : Audit.AuditEvent),
      e ∈ Audit.log_events prev es → e.event_hash = some e.compute_hash := by
  induction es with
  | nil =>
    intro prev e h
    simp [Audit.log_events] at h
  | cons e0 rest ih =>
    intro prev e h
    simp only [Audit.log_events, List.mem_cons] at h
    rcases h with rfl | h
    · rfl
    · exact ih _ _ h

/-- The first event stored by a fresh logger has no previous hash. -/
theorem audit_log_events_first (es : List Audit.AuditEvent) :
    ∀ (e : Audit.AuditEvent) (rest : List Audit.AuditEvent),
      Audit.log_events none es = e :: rest → e.previous_hash = none := by
  cases es with
  | nil =>
    intro e rest h
    simp [Audit.log_events] at h
  | cons e0 r =>
    intro e rest h
    simp only [Audit.log_events] at h
    cases h
    rfl

/-- C2: over any run of a fresh logger, the stored events form a hash chain:
the (i+1)-th stored event's `previous_hash` equals the i-th stored event's
`event_hash`, the first stored event's `previous_hash` is `None`, and every
stored `event_hash` is the SHA-256 hex digest of the pipe-joined id,
RFC 3339 timestamp, event-kind tag, action, resource-kind tag, resource id,
result tag, and previous-hash-or-empty, all read back from the stored
event. -/
theorem c2_audit_hash_chain (es : List Audit.AuditEvent) :
    (∀ i e1 e2, (Audit.log_events none es).get? i = some e1 →
      (Audit.log_events none es).get? (i + 1) = some e2 →
      e2.previous_hash = e1.event_hash) ∧
    (∀ e rest, Audit.log_events none es = e :: rest → e.previous_hash = none) ∧
    (∀ e ∈ Audit.log_events none es,
      e.event_hash = some (sha256hex (e.id ++ "|" ++ toRfc3339 e.timestamp ++ "|" ++
        e.event_type.as_str ++ "|" ++ e.action ++ "|" ++ e.resource_type.as_str ++ "|" ++
        e.resource_id ++ "|" ++ e.result.as_str ++ "|" ++ e.previous_hash.getD ("")))) :=
  ⟨fun i e1 e2 h1 h2 => audit_log_events_chain es none i e1 e2 h1 h2,
   fun e rest h => audit_log_events_first es e rest h,
   fun e h => audit_log_events_hash es none e h⟩

/-- C2, witnessed on a concrete two-event run. -/
theorem c2_audit_hash_chain_witness :
    ∃ e1 e2, (Audit.log_events none [evBase 3, evBase 4]).get? 0 = some e1 ∧
      (Audit.log_events none [evBase 3, evBase 4]).get? 1 = some e2 ∧
      e2.previous_hash = e1.event_hash ∧ e1.previous_hash = none :=
  ⟨Audit.log_event none (evBase 3),
   Audit.log_event (Audit.log_event none (evBase 3)).event_hash (evBase 4),
   rfl, rfl,
   (c2_audit_hash_chain [evBase 3, evBase 4]).1 0 _ _ rfl rfl,
   (c2_audit_hash_chain [evBase 3, evBase 4]).2.1 _ _ rfl⟩

/-- The filter `AuditFilter::new` builds matches every event. -/
theorem audit_matchesFilter_new (e : Audit.AuditEvent) :
    Audit.matchesFilter Audit.AuditFilter.new e = true := rfl

/-- C4, counterexample: the claim quantifies over every N, but the filter
built by `AuditFilter::new()` carries a default `limit` of 100, so storing
101 events and querying with it returns 100 events, not "exactly those N
events". -/
theorem c4_counterexample :
    (Audit.filter_events evs101 Audit.AuditFilter.new).length ≠ evs101.length := by decide

/-- C4, amended: for N ≤ 100 stored events, a query with the filter built by
`AuditFilter::new()` returns exactly those N events sorted by timestamp
descending; and when every stored timestamp is strictly before `now`,
`delete_older_than(now)` deletes all N, leaves the store empty, and a
subsequent query returns no events. -/
theorem c4_store_query_delete (events : List Audit.AuditEvent) (cutoff : Nat)
    (hlen : events.length ≤ 100)
    (hold : ∀ e ∈ events, e.timestamp < cutoff) :
    (Audit.filter_events events Audit.AuditFilter.new).Perm events ∧
    List.Sorted Audit.tsDesc (Audit.filter_events events Audit.AuditFilter.new) ∧
    (Audit.delete_older_than events cutoff).1 = events.length ∧
    (Audit.delete_older_than events cutoff).2 = [] ∧
    Audit.filter_events (Audit.delete_older_than events cutoff).2 Audit.AuditFilter.new = [] := by
  have hfilter : events.filter (Audit.matchesFilter Audit.AuditFilter.new) = events :=
    List.filter_eq_self.mpr (fun a _ => audit_matchesFilter_new a)
  have hperm : (List.insertionSort Audit.tsDesc events).Perm events :=
    List.perm_insertionSort Audit.tsDesc events
  have hlen2 : (List.insertionSort Audit.tsDesc events).length = events.length := hperm.length_eq
  have hoff : Audit.AuditFilter.new.offset = 0 := rfl
  have hlim : Audit.AuditFilter.new.limit = 100 := rfl
  have heq : Audit.filter_events events Audit.AuditFilter.new =
      List.insertionSort Audit.tsDesc events := by
    unfold Audit.filter_events
    rw [hfilter, hoff, hlim, List.drop_zero]
    exact List.take_of_length_le (by rw [hlen2]; exact hlen)
  have hkeep : events.filter (fun e => decide (cutoff ≤ e.timestamp)) = [] := by
    rw [List.filter_eq_nil_iff]
    intro a ha
    simp only [decide_eq_true_eq]
    have := hold a ha
    omega
  have hdel : events.filter (fun e => !decide (cutoff ≤ e.timestamp)) = events := by
    apply List.filter_eq_self.mpr
    intro a ha
    simp only [Bool.not_eq_true']
    have := hold a ha
    simp only [decide_eq_false_iff_not]
    omega
  have hparts : events.partition (fun e => decide (cutoff ≤ e.timestamp)) =
      (events.filter (fun e => decide (cutoff ≤ e.timestamp)),
       events.filter (fun e => !decide (cutoff ≤ e.timestamp))) :=
    List.partition_eq_filter_filter _ _
  refine ⟨heq ▸ hperm, heq ▸ List.sorted_insertionSort Audit.tsDesc events, ?_, ?_, ?_⟩
  · unfold Audit.delete_older_than
    rw [hparts]
    simp [hdel]
  · unfold Audit.delete_older_than
    rw [hparts]
    simpa using hkeep
  · unfold Audit.delete_older_than
    rw [hparts]
    simp [hkeep, Audit.filter_events]

/-- C4, witnessed on a concrete two-event store and the cutoff 10. -/
theorem c4_store_query_delete_witness :
    (Audit.filter_events [evBase 5, evBase 7] Audit.AuditFilter.new).Perm [evBase 5, evBase 7] ∧
    List.Sorted Audit.tsDesc
      (Audit.filter_events [evBase 5, evBase 7] Audit.AuditFilter.new) ∧
    (Audit.delete_older_than [evBase 5, evBase 7] 10).1 = ([evBase 5, evBase 7] : List Audit.AuditEvent).length ∧
    (Audit.delete_older_than [evBase 5, evBase 7] 10).2 = [] ∧
    Audit.filter_events (Audit.delete_older_than [evBase 5, evBase 7] 10).2
      Audit.AuditFilter.new = [] :=
  c4_store_query_delete [evBase 5, evBase 7] 10 (by decide) (by decide)

/-- Membership in a duplicate-free accumulation of permissions. -/
theorem auth_mem_permInsert_fold (perms : List Auth.Permission) :
    ∀ (acc : List Auth.Permission) (p : Auth.Permission),
      p ∈ perms.foldl Auth.permInsert acc ↔ p ∈ acc ∨ p ∈ perms := by
  induction perms with
  | nil => intro acc p; simp
  | cons q rest ih =>
    intro acc p
    rw [List.foldl_cons, ih]
    unfold Auth.permInsert
    by_cases hc : acc.contains q
    · rw [if_pos hc]
      have hq : q ∈ acc := by simpa using hc
      constructor
      · rintro (h | h)
        · exact Or.inl h
        · exact Or.inr (List.mem_cons_of_mem q h)
      · rintro (h | h)
        · exact Or.inl h
        · rcases List.mem_cons.mp h with rfl | h2
          · exact Or.inl hq
          · exact Or.inr h2
    · rw [if_neg hc]
      simp only [List.mem_append, List.mem_singleton, List.mem_cons]
      tauto

/-- Membership in the role fold of `compute_permissions`. -/
theorem auth_mem_compute_fold (ps : Auth.Policies) (roles : List String) :
    ∀ (acc : List Auth.Permission) (p : Auth.Permission),
      p ∈ roles.foldl
        (fun acc r =>
          match List.lookup r ps with
          | some pol => pol.permissions.foldl Auth.permInsert acc
          | none => acc)
        acc ↔
      p ∈ acc ∨ ∃ r ∈ roles, ∃ pol, List.lookup r ps = some pol ∧ p ∈ pol.permissions := by
  induction roles with
  | nil => intro acc p; simp
  | cons r rest ih =>
    intro acc p
    rw [List.foldl_cons, ih]
    cases hlu : List.lookup r ps with
    | none =>
      simp only [hlu]
      constructor
      · rintro (h | h)
        · exact Or.inl h
        · obtain ⟨r', hr', pol, hpol, hp⟩ := h
          exact Or.inr ⟨r', List.mem_cons_of_mem r hr', pol, hpol, hp⟩
      · rintro (h | ⟨r', hr', pol, hpol, hp⟩)
        · exact Or.inl h
        · rcases List.mem_cons.mp hr' with rfl | h2
          · rw [hlu] at hpol; cases hpol
          · exact Or.inr ⟨r', h2, pol, hpol, hp⟩
    | some pol =>
      simp only [hlu, auth_mem_permInsert_fold]
      constructor
      · rintro ((h | h) | h)
        · exact Or.inl h
        · exact Or.inr ⟨r, List.mem_cons_self r rest, pol, hlu, h⟩
        · obtain ⟨r', hr', pol', hpol, hp⟩ := h
          exact Or.inr ⟨r', List.mem_cons_of_mem r hr', pol', hpol, hp⟩
      · rintro (h | ⟨r', hr', pol', hpol, hp⟩)
        · exact Or.inl (Or.inl h)
        · rcases List.mem_cons.mp hr' with rfl | h2
          · rw [hlu] at hpol
            cases hpol
            exact Or.inl (Or.inr hp)
          · exact Or.inr ⟨r', h2, pol', hpol, hp⟩

/-- Membership in the specification-side union of role permissions. -/
theorem auth_mem_permission_union (ps : Auth.Policies) (roles : List String)
    (p : Auth.Permission) :
    p ∈ Auth.permission_union ps roles ↔
      ∃ r ∈ roles, ∃ pol, List.lookup r ps = some pol ∧ p ∈ pol.permissions := by
  unfold Auth.permission_union
  rw [Finset.mem_biUnion]
  constructor
  · rintro ⟨r, hr, hp⟩
    unfold Auth.rolePerms at hp
    cases hlu : List.lookup r ps with
    | none => rw [hlu] at hp; simp at hp
    | some pol =>
      rw [hlu] at hp
      exact ⟨r, List.mem_toFinset.mp hr, pol, hlu, List.mem_toFinset.mp hp⟩
  · rintro ⟨r, hr, pol, hpol, hp⟩
    refine ⟨r, List.mem_toFinset.mpr hr, ?_⟩
    unfold Auth.rolePerms
    rw [hpol]
    exact List.mem_toFinset.mpr hp

/-- Unfolding of `check_permission` at an unknown role. -/
theorem auth_check_permission_cons_none {ps : Auth.Policies} {r : String} {rest : List String}
    {p : Auth.Permission} (hlu : List.lookup r ps = none) :
    Auth.check_permission ps (r :: rest) p = Auth.check_permission ps rest p := by
  simp [Auth.check_permission, hlu]

/-- Unfolding of `check_permission` at a known role. -/
theorem auth_check_permission_cons_some {ps : Auth.Policies} {r : String} {rest : List String}
    {p : Auth.Permission} {pol : Auth.RolePolicy} (hlu : List.lookup r ps = some pol) :
    Auth.check_permission ps (r :: rest) p =
      if pol.permissions.contains Auth.Permission.AdminAccess then true
      else if pol.permissions.contains p then true
      else Auth.check_permission ps rest p := by
  simp [Auth.check_permission, hlu]

/-- C5: `compute_permissions(R)` equals, as a set, the union of the
permissions of the roles in `R`, except that when that union contains
`AdminAccess` it is the full permission universe; and `check_permission(R,p)`
is true exactly when some role of `R` is in the policy map and grants `p` or
grants `AdminAccess`. -/
theorem c5_rbac_compute_check (ps : Auth.Policies) (roles : List String) (p : Auth.Permission) :
    ((Auth.compute_permissions ps roles).toFinset =
      if Auth.Permission.AdminAccess ∈ Auth.permission_union ps roles
      then Auth.Permission.all.toFinset
      else Auth.permission_union ps roles) ∧
    (Auth.check_permission ps roles p = true ↔
      ∃ r ∈ roles, ∃ pol, List.lookup r ps = some pol ∧
        (p ∈ pol.permissions ∨ Auth.Permission.AdminAccess ∈ pol.permissions)) := by
  constructor
  · have hmem := auth_mem_compute_fold ps roles []
    have hunf : Auth.compute_permissions ps roles =
        if (roles.foldl
            (fun acc r =>
              match List.lookup r ps with
              | some pol => pol.permissions.foldl Auth.permInsert acc
              | none => acc)
            []).contains Auth.Permission.AdminAccess then Auth.Permission.all
        else roles.foldl
            (fun acc r =>
              match List.lookup r ps with
              | some pol => pol.permissions.foldl Auth.permInsert acc
              | none => acc)
            [] := rfl
    by_cases hadm : Auth.Permission.AdminAccess ∈ Auth.permission_union ps roles
    · rw [if_pos hadm]
      have hc : (roles.foldl
          (fun acc r =>
            match List.lookup r ps with
            | some pol => pol.permissions.foldl Auth.permInsert acc
            | none => acc)
          []).contains Auth.Permission.AdminAccess = true := by
        have hmm : Auth.Permission.AdminAccess ∈ roles.foldl
            (fun acc r =>
              match List.lookup r ps with
              | some pol => pol.permissions.foldl Auth.permInsert acc
              | none => acc)
            [] := by
          rw [hmem Auth.Permission.AdminAccess]
          exact Or.inr ((auth_mem_permission_union ps roles _).mp hadm)
        simpa using hmm
      rw [hunf, hc]
      simp
    · rw [if_neg hadm]
      have hc : (roles.foldl
          (fun acc r =>
            match List.lookup r ps with
            | some pol => pol.permissions.foldl Auth.permInsert acc
            | none => acc)
          []).contains Auth.Permission.AdminAccess = false := by
        have hmm : Auth.Permission.AdminAccess ∉ roles.foldl
            (fun acc r =>
              match List.lookup r ps with
              | some pol => pol.permissions.foldl Auth.permInsert acc
              | none => acc)
            [] := by
          rw [hmem Auth.Permission.AdminAccess]
          rintro (h | h)
          · simp at h
          · exact hadm ((auth_mem_permission_union ps roles _).mpr h)
        simpa using hmm
      rw [hunf, hc]
      simp only [Bool.false_eq_true, if_false]
      ext q
      rw [List.mem_toFinset, hmem q, auth_mem_permission_union]
      simp
  · induction roles with
    | nil => simp [Auth.check_permission]
    | cons r rest ih =>
      cases hlu : List.lookup r ps with
      | none =>
        rw [auth_check_permission_cons_none hlu, ih]
        constructor
        · rintro ⟨r', hr', pol, hpol, hp⟩
          exact ⟨r', List.mem_cons_of_mem r hr', pol, hpol, hp⟩
        · rintro ⟨r', hr', pol, hpol, hp⟩
          rcases List.mem_cons.mp hr' with rfl | h2
          · rw [hlu] at hpol; cases hpol
          · exact ⟨r', h2, pol, hpol, hp⟩
      | some pol =>
        rw [auth_check_permission_cons_some hlu]
        by_cases hadm : pol.permissions.contains Auth.Permission.AdminAccess
        · rw [if_pos hadm]
          simp only [true_iff]
          exact ⟨r, List.mem_cons_self r rest, pol, hlu, Or.inr (by simpa using hadm)⟩
        · rw [if_neg hadm]
          by_cases hp : pol.permissions.contains p
          · rw [if_pos hp]
            simp only [true_iff]
            exact ⟨r, List.mem_cons_self r rest, pol, hlu, Or.inl (by simpa using hp)⟩
          · rw [if_neg hp]
            rw [ih]
            constructor
            · rintro ⟨r', hr', pol', hpol, hmem⟩
              exact ⟨r', List.mem_cons_of_mem r hr', pol', hpol, hmem⟩
            · rintro ⟨r', hr', pol', hpol, hmem⟩
              rcases List.mem_cons.mp hr' with rfl | h2
              · rw [hlu] at hpol
                cases hpol
                rcases hmem with hm | hm
                · exact absurd (by simpa using hm : pol.permissions.contains p = true) hp
                · exact absurd
                    (by simpa using hm :
                      pol.permissions.contains Auth.Permission.AdminAccess = true) hadm
              · exact ⟨r', h2, pol', hpol, hmem⟩

/-- C5, instantiated on a concrete policy map and role list. -/
theorem c5_rbac_compute_check_witness :
    ((Auth.compute_permissions psW ["viewer"]).toFinset =
      if Auth.Permission.AdminAccess ∈ Auth.permission_union psW ["viewer"]
      then Auth.Permission.all.toFinset
      else Auth.permission_union psW ["viewer"]) ∧
    (Auth.check_permission psW ["viewer"] .WorkflowRead = true ↔
      ∃ r ∈ ["viewer"], ∃ pol, List.lookup r psW = some pol ∧
        (Auth.Permission.WorkflowRead ∈ pol.permissions ∨
          Auth.Permission.AdminAccess ∈ pol.permissions)) :=
  c5_rbac_compute_check psW ["viewer"] .WorkflowRead

/-- C6: verifying a token generated with the same secret (within its
lifetime) yields claims with that subject, those roles and the configured
issuer; `refresh_access_token` is exactly `verify_refresh_token` followed by
`generate_token`; and refreshing a refresh token with new roles yields an
access token that verifies to the refresh token's subject with the new
roles. -/
theorem c6_jwt_roundtrip_refresh (a : Auth.JwtAuth) (uid : String)
    (roles new_roles : List String) (t_iss t_ver t0 t1 t2 : Int) (jti jti1 jti2 : String)
    (h1 : t_ver ≤ t_iss + a.expiry_seconds)
    (h2 : t1 ≤ t0 + a.refresh_expiry_seconds)
    (h3 : t2 ≤ t1 + a.expiry_seconds) :
    (Auth.verify_token a t_ver (Auth.generate_token a t_iss jti uid roles) =
      .ok { sub := uid, roles := roles, exp := t_iss + a.expiry_seconds, iat := t_iss,
            iss := a.issuer, jti := some jti }) ∧
    (∀ (tok : Auth.JwtToken) (rs : List String) (tv ti : Int) (j : String),
      Auth.refresh_access_token a tv ti j tok rs =
        (Auth.verify_refresh_token a tv tok).map (fun u => Auth.generate_token a ti j u rs)) ∧
    (Auth.refresh_access_token a t1 t1 jti2 (Auth.generate_refresh_token a t0 jti1 uid)
        new_roles = .ok (Auth.generate_token a t1 jti2 uid new_roles)) ∧
    (Auth.verify_token a t2 (Auth.generate_token a t1 jti2 uid new_roles) =
      .ok { sub := uid, roles := new_roles, exp := t1 + a.expiry_seconds, iat := t1,
            iss := a.issuer, jti := some jti2 }) := by
  have hlee1 : ¬ (t_iss + a.expiry_seconds < t_ver - Auth.jwtLeeway) := by
    unfold Auth.jwtLeeway; omega
  have hexp1 : ¬ (t_iss + a.expiry_seconds < t_ver) := by omega
  have hlee2 : ¬ (t0 + a.refresh_expiry_seconds < t1 - Auth.jwtLeeway) := by
    unfold Auth.jwtLeeway; omega
  have hexp2 : ¬ (t0 + a.refresh_expiry_seconds < t1) := by omega
  have hlee3 : ¬ (t1 + a.expiry_seconds < t2 - Auth.jwtLeeway) := by
    unfold Auth.jwtLeeway; omega
  have hexp3 : ¬ (t1 + a.expiry_seconds < t2) := by omega
  refine ⟨?_, ?_, ?_, ?_⟩
  · simp [Auth.verify_token, Auth.jwt_decode_access, Auth.generate_token, Auth.jwt_encode,
      hlee1, hexp1]
  · intro tok rs tv ti j
    cases h : Auth.verify_refresh_token a tv tok with
    | error e => simp [Auth.refresh_access_token, h, Except.map]
    | ok u => simp [Auth.refresh_access_token, h, Except.map]
  · simp [Auth.refresh_access_token, Auth.verify_refresh_token, Auth.jwt_decode_refresh,
      Auth.generate_refresh_token, Auth.jwt_encode, hlee2, hexp2]
  · simp [Auth.verify_token, Auth.jwt_decode_access, Auth.generate_token, Auth.jwt_encode,
      hlee3, hexp3]

/-- C6, instantiated at concrete times, secret, subject and roles. -/
theorem c6_jwt_roundtrip_refresh_witness :
    ((1000 : Int) ≤ 200 + (Auth.JwtAuth.new [7, 7]).expiry_seconds) ∧
    (Auth.verify_token (Auth.JwtAuth.new [7, 7]) 1000
        (Auth.generate_token (Auth.JwtAuth.new [7, 7]) 200 "j0" "u" ["executor"]) =
      .ok { sub := "u", roles := ["executor"],
            exp := 200 + (Auth.JwtAuth.new [7, 7]).expiry_seconds, iat := 200,
            iss := (Auth.JwtAuth.new [7, 7]).issuer, jti := some "j0" }) ∧
    (Auth.refresh_access_token (Auth.JwtAuth.new [7, 7]) 500 500 "j2"
        (Auth.generate_refresh_token (Auth.JwtAuth.new [7, 7]) 100 "j1" "u") ["executor"] =
      .ok (Auth.generate_token (Auth.JwtAuth.new [7, 7]) 500 "j2" "u" ["executor"])) :=
  ⟨by decide,
   (c6_jwt_roundtrip_refresh (Auth.JwtAuth.new [7, 7]) "u" ["executor"] ["executor"]
      200 1000 100 500 600 "j0" "j1" "j2" (by decide) (by decide) (by decide)).1,
   (c6_jwt_roundtrip_refresh (Auth.JwtAuth.new [7, 7]) "u" ["executor"] ["executor"]
      200 1000 100 500 600 "j0" "j1" "j2" (by decide) (by decide) (by decide)).2.2.1⟩

/-- After `update_last_used` on the looked-up entry's id, looking the digest
up again returns the entry with `last_used_at` set (ids unique). -/
theorem auth_store_lookup_update :
    ∀ (ks : Auth.KeyStore), (ks.map (fun k => k.id)).Nodup →
      ∀ (digest : String) (info : Auth.ApiKeyInfo) (now : Int),
        Auth.store_lookup_key ks digest = some info →
        Auth.store_lookup_key (Auth.update_last_used ks info.id now) digest =
          some { info with last_used_at := some now } := by
  intro ks
  induction ks with
  | nil =>
    intro _ digest info now h
    simp [Auth.store_lookup_key] at h
  | cons k rest ih =>
    intro hnd digest info now hfind
    simp only [List.map_cons, List.nodup_cons] at hnd
    unfold Auth.store_lookup_key at hfind
    cases hkd : (k.key_hash == digest) with
    | true =>
      have hpos : List.find? (fun x => x.key_hash == digest) (k :: rest) = some k :=
        List.find?_cons_of_pos _ hkd
      rw [hpos] at hfind
      cases hfind
      unfold Auth.update_last_used
      rw [if_pos (beq_self_eq_true k.id)]
      unfold Auth.store_lookup_key
      have hpos2 : ({ k with last_used_at := some now } : Auth.ApiKeyInfo).key_hash == digest :=
        by simpa using hkd
      exact List.find?_cons_of_pos _ hpos2
    | false =>
      have hneg : List.find? (fun x => x.key_hash == digest) (k :: rest) =
          List.find? (fun x => x.key_hash == digest) rest :=
        List.find?_cons_of_neg _ (by simp [hkd])
      rw [hneg] at hfind
      have hmem : info ∈ rest := List.mem_of_find?_eq_some hfind
      have hne : (k.id == info.id) = false := by
        rw [beq_eq_false_iff_ne]
        intro hEq
        exact hnd.1 (hEq ▸ List.mem_map_of_mem (fun x => x.id) hmem)
      unfold Auth.update_last_used
      rw [hne]
      simp only [Bool.false_eq_true, if_false]
      unfold Auth.store_lookup_key
      have hneg2 : List.find? (fun x => x.key_hash == digest)
          (k :: Auth.update_last_used rest info.id now) =
          List.find? (fun x => x.key_hash == digest) (Auth.update_last_used rest info.id now) :=
        List.find?_cons_of_neg _ (by simp [hkd])
      rw [hneg2]
      exact ih hnd.2 digest info now hfind

/-- C7: `lookup_key` hashes the plaintext with SHA-256 and looks the store up
by the digest: a missing digest yields `ApiKeyNotFound`; an expiry strictly
in the past yields `ApiKeyExpired`; otherwise the key's `last_used_at` is set
to now, and the updated record is returned together with the updated
store. -/
theorem c7_api_key_lookup (ks : Auth.KeyStore) (now : Int) (key : String) :
    (Auth.store_lookup_key ks (sha256hex key) = none →
      Auth.lookup_key ks now key = .error .ApiKeyNotFound) ∧
    (∀ info e, Auth.store_lookup_key ks (sha256hex key) = some info →
      info.expires_at = some e → e < now →
      Auth.lookup_key ks now key = .error .ApiKeyExpired) ∧
    ((ks.map (fun k => k.id)).Nodup →
      ∀ info, Auth.store_lookup_key ks (sha256hex key) = some info →
        Auth.key_expired info now = false →
        Auth.lookup_key ks now key =
          .ok ({ info with last_used_at := some now }, Auth.update_last_used ks info.id now)) := by
  refine ⟨?_, ?_, ?_⟩
  · intro h
    simp [Auth.lookup_key, Auth.hash_key, h]
  · intro info e hfind hexp hlt
    simp [Auth.lookup_key, Auth.hash_key, hfind, Auth.key_expired, hexp, hlt]
  · intro hnd info hfind hnexp
    have hupd := auth_store_lookup_update ks hnd (sha256hex key) info now hfind
    simp [Auth.lookup_key, Auth.hash_key, hfind, hnexp, hupd]

/-- C7, witnessed on a one-key store holding the digest of `k1`. -/
theorem c7_api_key_lookup_witness :
    Auth.lookup_key [infoK] 5 "k1" =
      .ok ({ infoK with last_used_at := some 5 }, Auth.update_last_used [infoK] infoK.id 5) :=
  (c7_api_key_lookup [infoK] 5 "k1").2.2 (by decide) infoK (by decide) (by decide)

/-- C8: `authenticate` with no header is `MissingCredentials`; a header
carrying neither the `Bearer ` nor the `ApiKey ` scheme is
`InvalidCredentials`; on the `ApiKey ` path the returned context's
permissions are the key's scopes mapped through the fixed
scope-to-permission table; the table is exactly the seven-entry mapping of
the source; and an unknown scope contributes nothing. -/
theorem c8_authenticate (jwtPath : String → Except Auth.AuthError Auth.AuthContext)
    (ks : Auth.KeyStore) (now : Int) :
    (Auth.authenticate jwtPath ks now none = .error .MissingCredentials) ∧
    (∀ h, Auth.strip_prefix ("Bearer ") h = none → Auth.strip_prefix ("ApiKey ") h = none →
      Auth.authenticate jwtPath ks now (some h) = .error .InvalidCredentials) ∧
    ((ks.map (fun k => k.id)).Nodup →
      ∀ h key info, Auth.strip_prefix ("Bearer ") h = none →
        Auth.strip_prefix ("ApiKey ") h = some key →
        Auth.store_lookup_key ks (sha256hex key) = some info →
        Auth.key_expired info now = false →
        Auth.authenticate jwtPath ks now (some h) =
          .ok ({ user_id := info.user_id, roles := Auth.scopes_to_roles info.scopes,
                 permissions := Auth.scopes_to_permissions info.scopes,
                 auth_type := .ApiKey info.id,
                 expires_at := info.expires_at.getD (now + Auth.tenYears) },
               Auth.update_last_used ks info.id now)) ∧
    (Auth.scopePerm ("workflow:read") = some .WorkflowRead ∧
     Auth.scopePerm ("workflow:write") = some .WorkflowWrite ∧
     Auth.scopePerm ("workflow:execute") = some .WorkflowExecute ∧
     Auth.scopePerm ("workflow:delete") = some .WorkflowDelete ∧
     Auth.scopePerm ("execution:read") = some .ExecutionRead ∧
     Auth.scopePerm ("execution:cancel") = some .ExecutionCancel ∧
     Auth.scopePerm ("admin") = some .AdminAccess) ∧
    (∀ scopes s, Auth.scopePerm s = none →
      Auth.scopes_to_permissions (scopes ++ [s]) = Auth.scopes_to_permissions scopes) := by
  refine ⟨rfl, ?_, ?_, ⟨rfl, rfl, rfl, rfl, rfl, rfl, rfl⟩, ?_⟩
  · intro h hB hA
    simp [Auth.authenticate, hB, hA]
  · intro hnd h key info hB hA hfind hnexp
    have hupd := auth_store_lookup_update ks hnd (sha256hex key) info now hfind
    simp [Auth.authenticate, hB, hA, Auth.authenticate_api_key, Auth.lookup_key,
      Auth.hash_key, hfind, hnexp, hupd]
  · intro scopes s hs
    simp [Auth.scopes_to_permissions, List.filterMap_append, hs]

/-- C8, witnessed: an `ApiKey `-scheme header against a one-key store. -/
theorem c8_authenticate_witness :
    Auth.authenticate (fun _ => Except.error Auth.AuthError.InvalidCredentials) [infoK] 5
        (some ("ApiKey k1")) =
      .ok ({ user_id := infoK.user_id, roles := Auth.scopes_to_roles infoK.scopes,
             permissions := Auth.scopes_to_permissions infoK.scopes,
             auth_type := .ApiKey infoK.id,
             expires_at := infoK.expires_at.getD (5 + Auth.tenYears) },
           Auth.update_last_used [infoK] infoK.id 5) :=
  (c8_authenticate (fun _ => Except.error Auth.AuthError.InvalidCredentials) [infoK] 5).2.2.1
    (by decide) ("ApiKey k1") ("k1") infoK (by decide) (by decide) (by decide) (by decide)

/-- C10: authenticating an API key that has no expiry yields a context whose
`expires_at` is 3650 days (ten years) after the authentication instant. -/
theorem c10_api_key_context_far_future (ks : Auth.KeyStore) (now : Int) (key : String)
    (hnd : (ks.map (fun k => k.id)).Nodup) :
    ∀ info, Auth.store_lookup_key ks (sha256hex key) = some info →
      info.expires_at = none →
      (∃ ks', Auth.authenticate_api_key ks now key =
        .ok ({ user_id := info.user_id, roles := Auth.scopes_to_roles info.scopes,
               permissions := Auth.scopes_to_permissions info.scopes,
               auth_type := .ApiKey info.id, expires_at := now + Auth.tenYears }, ks')) ∧
      Auth.tenYears = 3650 * 86400 := by
  intro info hfind hne
  have hnexp : Auth.key_expired info now = false := by simp [Auth.key_expired, hne]
  have hupd := auth_store_lookup_update ks hnd (sha256hex key) info now hfind
  refine ⟨⟨Auth.update_last_used ks info.id now, ?_⟩, rfl⟩
  simp [Auth.authenticate_api_key, Auth.lookup_key, Auth.hash_key, hfind, hnexp, hupd, hne]

/-- C10, witnessed on the expiry-free stored key. -/
theorem c10_api_key_context_far_future_witness :
    (∃ ks', Auth.authenticate_api_key [infoK] 5 "k1" =
      .ok ({ user_id := infoK.user_id, roles := Auth.scopes_to_roles infoK.scopes,
             permissions := Auth.scopes_to_permissions infoK.scopes,
             auth_type := .ApiKey infoK.id, expires_at := 5 + Auth.tenYears }, ks')) ∧
    Auth.tenYears = 3650 * 86400 :=
  c10_api_key_context_far_future [infoK] 5 "k1" (by decide) infoK (by decide) (by decide)

/-- Skip step of the dispatch loop: on a false condition the loop records
the skipped result and leaves `completed` unchanged. -/
theorem core_executeLoop_cons_skip
    (attemptLlm : Core.Step → Nat → Except String (List (String × Json)))
    {steps : List Core.Step} {sid : String} {s : Core.Step} {completed : List String}
    (rest : List String) (acc : List (String × Core.StepResult))
    (hfind : steps.find? (fun x => x.id == sid) = some s)
    (hdeps : (s.depends_on.all fun d => completed.contains d) = true)
    (hse : Core.should_execute s = some false) :
    Core.executeLoop attemptLlm steps (sid :: rest) completed acc =
      Core.executeLoop attemptLlm steps rest completed
        ((sid, Core.skippedResult sid) :: acc) := by
  simp only [Core.executeLoop, hfind]
  rw [if_pos hdeps, hse]

/-- Dispatch step of the loop: on a passing gate the loop records the step's
result and inserts its id into `completed`. -/
theorem core_executeLoop_cons_dispatch
    (attemptLlm : Core.Step → Nat → Except String (List (String × Json)))
    {steps : List Core.Step} {sid : String} {s : Core.Step} {completed : List String}
    (rest : List String) (acc : List (String × Core.StepResult))
    (hfind : steps.find? (fun x => x.id == sid) = some s)
    (hdeps : (s.depends_on.all fun d => completed.contains d) = true)
    (hse : Core.should_execute s = some true) :
    Core.executeLoop attemptLlm steps (sid :: rest) completed acc =
      Core.executeLoop attemptLlm steps rest (sid :: completed)
        ((sid, Core.execute_step attemptLlm s) :: acc) := by
  simp only [Core.executeLoop, hfind]
  rw [if_pos hdeps, hse]

/-- Under a well-formed order the dispatch loop returns, keeps everything
already accumulated, and records the expected result for every id of the
order. -/
theorem core_executeLoop_returns
    (attemptLlm : Core.Step → Nat → Except String (List (String × Json)))
    (steps : List Core.Step) :
    ∀ (order completed : List String) (acc : List (String × Core.StepResult)),
      Core.goodOrder steps order completed = true →
      ∃ results, Core.executeLoop attemptLlm steps order completed acc = .returns results ∧
        (∀ p ∈ acc, p ∈ results) ∧
        (∀ sid ∈ order, ∀ s, steps.find? (fun x => x.id == sid) = some s →
          (sid, Core.expectedResult attemptLlm s) ∈ results) := by
  intro order
  induction order with
  | nil =>
    intro completed acc _
    refine ⟨acc.reverse, rfl, ?_, ?_⟩
    · intro p hp
      exact List.mem_reverse.mpr hp
    · intro sid hsid
      cases hsid
  | cons sid rest ih =>
    intro completed acc hgood
    unfold Core.goodOrder at hgood
    cases hfind : steps.find? (fun s => s.id == sid) with
    | none => rw [hfind] at hgood; cases hgood
    | some s =>
      rw [hfind] at hgood
      simp only [Bool.and_eq_true] at hgood
      obtain ⟨⟨hcond, hdeps⟩, hrest⟩ := hgood
      have hid : s.id = sid := by
        have hps := List.find?_some hfind
        simpa using hps
      cases hse : Core.should_execute s with
      | none => rw [hse] at hcond; cases hcond
      | some b =>
        cases b with
        | false =>
          have hcp : Core.condPass s = false := by simp [Core.condPass, hse]
          rw [hcp] at hrest
          obtain ⟨results, hret, hacc, hord⟩ :=
            ih completed ((sid, Core.skippedResult sid) :: acc) hrest
          rw [core_executeLoop_cons_skip attemptLlm rest acc hfind hdeps hse]
          refine ⟨results, hret, ?_, ?_⟩
          · intro p hp
            exact hacc p (List.mem_cons_of_mem _ hp)
          · intro sid' hsid' s' hfind'
            rcases List.mem_cons.mp hsid' with rfl | h2
            · rw [hfind] at hfind'
              cases hfind'
              have hexp : Core.expectedResult attemptLlm s = Core.skippedResult s.id := by
                simp [Core.expectedResult, hcp]
              rw [hexp, hid]
              exact hacc _ (List.mem_cons_self _ _)
            · exact hord sid' h2 s' hfind'
        | true =>
          have hcp : Core.condPass s = true := by simp [Core.condPass, hse]
          rw [hcp] at hrest
          obtain ⟨results, hret, hacc, hord⟩ :=
            ih (sid :: completed) ((sid, Core.execute_step attemptLlm s) :: acc) hrest
          rw [core_executeLoop_cons_dispatch attemptLlm rest acc hfind hdeps hse]
          refine ⟨results, hret, ?_, ?_⟩
          · intro p hp
            exact hacc p (List.mem_cons_of_mem _ hp)
          · intro sid' hsid' s' hfind'
            rcases List.mem_cons.mp hsid' with rfl | h2
            · rw [hfind] at hfind'
              cases hfind'
              have hexp : Core.expectedResult attemptLlm s = Core.execute_step attemptLlm s := by
                simp [Core.expectedResult, hcp]
              rw [hexp]
              exact hacc _ (List.mem_cons_self _ _)
            · exact hord sid' h2 s' hfind'

/-- With unique step ids, finding by a member's id returns that member. -/
theorem core_find_of_nodup (steps : List Core.Step) (s : Core.Step)
    (hnd : (steps.map (fun x => x.id)).Nodup) (hs : s ∈ steps) :
    steps.find? (fun x => x.id == s.id) = some s := by
  induction steps with
  | nil => cases hs
  | cons y ys ih =>
    simp only [List.map_cons, List.nodup_cons] at hnd
    rcases List.mem_cons.mp hs with rfl | hmem
    · simp [List.find?]
    · rw [List.find?]
      have hne : (y.id == s.id) = false := by
        rw [beq_eq_false_iff_ne]
        intro hEq
        exact hnd.1 (hEq ▸ List.mem_map_of_mem (fun x => x.id) hmem)
      rw [hne]
      exact ih hnd.2 hmem

/-- C3, counterexample: `wfChain` validates and DAG-builds (unique ids,
declared dependencies, no cycle), yet `execute()` does not return a result
map for it: step `t3` depends on the skipped step `t2`, whose id never
enters `completed`, so the dispatch loop never passes `t3`'s barrier. -/
theorem c3_counterexample :
    Core.execute Core.noProvider wfChain wfChainOrder = .diverges := rfl

/-- C3, amended: for every workflow whose validation and DAG build succeed
(unique ids, an execution order resolving every id), whose step conditions
all evaluate, and in which no step depends on a step whose condition gate
fails, `execute()` returns a map with an entry for every declared step whose
status is `Completed`, `Failed` or `Skipped`; a step whose retries are
exhausted is recorded `Failed` with its error's string form and does not
keep `execute()` from returning the map. -/
theorem c3_execute_results
    (attemptLlm : Core.Step → Nat → Except String (List (String × Json)))
    (steps : List Core.Step) (order : List String)
    (hnd : (steps.map (fun s => s.id)).Nodup)
    (hall : ∀ s ∈ steps, s.id ∈ order)
    (hgood : Core.goodOrder steps order [] = true) :
    ∃ results, Core.execute attemptLlm steps order = .returns results ∧
      ∀ s ∈ steps, ∃ r, (s.id, r) ∈ results ∧
        (r.status = .Completed ∨ r.status = .Failed ∨ r.status = .Skipped) ∧
        (∀ e, Core.condPass s = true →
          Core.retry_execute (Core.retry_max_attempts s)
            (Core.execute_step_inner attemptLlm s) = .error e →
          r.status = .Failed ∧ r.error = some e) := by
  obtain ⟨results, hret, _, hord⟩ := core_executeLoop_returns attemptLlm steps order [] [] hgood
  refine ⟨results, hret, ?_⟩
  intro s hs
  have hfind := core_find_of_nodup steps s hnd hs
  refine ⟨Core.expectedResult attemptLlm s, hord s.id (hall s hs) s hfind, ?_, ?_⟩
  · unfold Core.expectedResult
    by_cases hcp : Core.condPass s = true
    · rw [if_pos hcp]
      cases hre : Core.retry_execute (Core.retry_max_attempts s)
          (Core.execute_step_inner attemptLlm s) with
      | ok outputs =>
        left
        simp [Core.execute_step, hre]
      | error e =>
        right; left
        simp [Core.execute_step, hre]
    · rw [if_neg hcp]
      right; right
      rfl
  · intro e hcp hre
    unfold Core.expectedResult
    rw [if_pos hcp]
    constructor
    · simp [Core.execute_step, hre]
    · simp [Core.execute_step, hre]

/-- C3, witnessed on a workflow exercising all three terminal statuses:
`w1` completes, `w2` (unimplemented `Embed`, 2 attempts) fails, `w3` is
skipped. -/
theorem c3_execute_results_witness :
    ∃ results, Core.execute Core.noProvider wfMix wfMixOrder = .returns results ∧
      ∀ s ∈ wfMix, ∃ r, (s.id, r) ∈ results ∧
        (r.status = .Completed ∨ r.status = .Failed ∨ r.status = .Skipped) ∧
        (∀ e, Core.condPass s = true →
          Core.retry_execute (Core.retry_max_attempts s)
            (Core.execute_step_inner Core.noProvider s) = .error e →
          r.status = .Failed ∧ r.error = some e) :=
  c3_execute_results Core.noProvider wfMix wfMixOrder (by decide) (by decide) (by decide)
